import Mathlib

/-!
Verification development for the `distiller` example notebooks
(`examples/word_language_model/quantize_lstm.ipynb` and
`jupyter/save_intermediate_feature_maps.ipynb`).

Tensors are embedded as lists: a 1-D tensor of token ids is a `List Int`,
a 2-D tensor is a `List (List Int)` of its rows.  Floating-point scalars
produced by the external library (loss values, `np.exp`) are embedded as
rationals or kept abstract as function parameters, since their numeric
computation lives entirely in the external framework.
-/

set_option autoImplicit false

namespace Distiller

/-! ### Tensor slicing primitives used by the notebook code -/

/-- Embedding of `data.narrow(0, start, len)`: the contiguous slice of `len` elements of a
1-D tensor starting at `start`. -/
def narrow0 (xs : List Int) (start len : Nat) : List Int :=
  (xs.drop start).take len

/-- Embedding of `data.view(rows, -1)` on a 1-D tensor whose length is `rows * cols`:
reshape row-major into `rows` rows of `cols` elements each. -/
def view2 (xs : List Int) (rows cols : Nat) : List (List Int) :=
  (List.range rows).map (fun r => narrow0 xs (r * cols) cols)

/-- Embedding of `.t()`: transpose of a 2-D tensor (all rows have the length of the first
row; out-of-range reads default to `0`, which never happens on the
well-formed matrices produced by `view2`). -/
def t2 (m : List (List Int)) : List (List Int) :=
  (List.range (m.headD []).length).map
    (fun i => m.map (fun row => row.getD i 0))

/-! ### `batchify` (quantize_lstm.ipynb, data-preparation cell) -/

/-- Embedding of `batchify(data, bsz)` from the notebook:
`nbatch = data.size(0) // bsz`, trim to `nbatch * bsz` elements with
`narrow`, reshape with `view(bsz, -1)` and transpose.  (`.contiguous()` and
`.to(device)` do not change element values.) -/
def batchify (data : List Int) (bsz : Nat) : List (List Int) :=
  let nbatch := data.length / bsz
  let trimmed := narrow0 data 0 (nbatch * bsz)
  t2 (view2 trimmed bsz nbatch)

/-- Constant `batch_size = 20` of the notebook. -/
def batch_size : Nat := 20

/-- Constant `eval_batch_size = 10` of the notebook. -/
def eval_batch_size : Nat := 10

/-! ### `get_batch` (quantize_lstm.ipynb, evaluation-batching cell) -/

/-- Constant `sequence_len = 35` of the notebook. -/
def sequence_len : Nat := 35

/-- Embedding of `get_batch(source, i)` from the notebook: `seq_len = min(sequence_len,
len(source) - 1 - i)`, `data = source[i:i+seq_len]`,
`target = source[i+1:i+1+seq_len].view(-1)` (rows flattened). -/
def get_batch (source : List (List Int)) (i : Nat) :
    List (List Int) × List Int :=
  let seq_len := min sequence_len (source.length - 1 - i)
  let data := (source.drop i).take seq_len
  let target := ((source.drop (i + 1)).take seq_len).flatten
  (data, target)

/-! ### `evaluate` (quantize_lstm.ipynb, evaluation cell)

The model and the cross-entropy criterion live in the external framework;
they are parameters.  A model maps an input batch and a hidden state to an
output and a new hidden state (`output, hidden = model(data, hidden)`), and
the criterion maps an output and a flat target tensor to a rational loss
(the reshape `output.view(-1, ntokens)` is a data-layout operation absorbed
into the abstract criterion parameter; `repackage_hidden` detaches tensors
from autograd history without changing their values, so it is the identity
on the embedded values). -/

/-- The index sequence `range(0, n, sequence_len)` of the evaluation loop:
`0, 35, 70, ...` strictly below `n`. -/
def batchStarts (n : Nat) : List Nat :=
  List.range' 0 ((n + sequence_len - 1) / sequence_len) sequence_len

/-- Embedding of `evaluate(model, data_source)` from the notebook: starting from
`total_loss = 0` and `hidden = model.init_hidden(eval_batch_size)`, for each
`i in range(0, data_source.size(0), sequence_len)` take
`data, targets = get_batch(data_source, i)`, run
`output, hidden = model(data, hidden)`, add
`len(data) * criterion(output_flat, targets)` to the total, and finally
return `total_loss / len(data_source)`. -/
def evaluate {H O : Type} (model : List (List Int) → H → O × H)
    (criterion : O → List Int → ℚ) (hidden0 : H)
    (data_source : List (List Int)) : ℚ :=
  ((batchStarts data_source.length).foldl
    (fun acc i =>
      let db := get_batch data_source i
      let oh := model db.1 acc.2
      (acc.1 + (db.1.length : ℚ) * criterion oh.1 db.2, oh.2))
    ((0 : ℚ), hidden0)).1 / (data_source.length : ℚ)

/-- Specification-side description of the evaluation loop: the list of
per-batch pairs (row count of the batch, mean cross-entropy of the model
output on that batch against the one-row-shifted flattened target), with the
hidden state threaded from batch to batch.  Recursion over the list of
batch start indices. -/
def batchLossList {H O : Type} (model : List (List Int) → H → O × H)
    (criterion : O → List Int → ℚ) (source : List (List Int)) :
    List Nat → H → List (Nat × ℚ)
  | [], _ => []
  | i :: is, h =>
    let seqLen := min sequence_len (source.length - 1 - i)
    let data := (source.drop i).take seqLen
    let target := ((source.drop (i + 1)).take seqLen).flatten
    let oh := model data h
    (data.length, criterion oh.1 target) :: batchLossList model criterion source is oh.2

/-- The per-batch (row count, mean loss) pairs of a full evaluation run. -/
def batchLosses {H O : Type} (model : List (List Int) → H → O × H)
    (criterion : O → List Int → ℚ) (hidden0 : H)
    (source : List (List Int)) : List (Nat × ℚ) :=
  batchLossList model criterion source (batchStarts source.length) hidden0

/-- The notebook's report line
`print('val_loss:%8.2f\t|\t ppl:%8.2f' % (val_loss, np.exp(val_loss)))`:
the pair of printed figures.  `np.exp` is external library code, passed in
as the abstract parameter `exmap`. -/
def reportLine (exmap : ℚ → ℚ) (val_loss : ℚ) : ℚ × ℚ :=
  (val_loss, exmap val_loss)

/-- All (val_loss, ppl) figures the notebook reports: one `reportLine` per
evaluated model variant (baseline, the quantized configurations and the
fp16 copy), each applied to the loss `evaluate` returned for that model. -/
def reportedFigures {H O : Type}
    (models : List (List (List Int) → H → O × H))
    (criterion : O → List Int → ℚ) (exmap : ℚ → ℚ) (hidden0 : H)
    (source : List (List Int)) : List (ℚ × ℚ) :=
  models.map (fun m => reportLine exmap (evaluate m criterion hidden0 source))

/-! ### The language model and its conversion (quantize_lstm.ipynb)

The classes `RNNModel`, `DistillerRNNModel`, the built-in PyTorch LSTM and
`DistillerLSTM` are not under `src/`; only the notebook that converts
between them is.  Following the spec ("convert a pretrained recurrent
language model's built-in recurrent layer into a custom, inspectable
implementation") and the notebook's own account, both recurrent layers are
modelled as containers of the same weights `W`, computing the recurrence
determined by an abstract cell function `cell : W → X → H → X × H` over the
input sequence; the built-in layer runs it by direct recursion, the custom
modular layer by a left fold with an output accumulator.  The embedding
lookup of the encoder and the affine map of the decoder are likewise
abstract functions of the copied parameter tensors. -/

/-- Modelled from the spec: the built-in PyTorch LSTM layer of the
pretrained `RNNModel`, represented by its weight tensors `W` (the cell math
lives in the external framework). -/
structure PyTorchLSTM (W : Type) where
  weights : W

/-- Modelled from the spec: the custom, inspectable `DistillerLSTM` layer,
represented by its weight tensors `W`. -/
structure DistillerLSTM (W : Type) where
  weights : W

/-- Modelled from the spec: `DistillerLSTM.from_pytorch_impl` builds the
custom layer carrying the weight tensors of the given built-in layer. -/
def DistillerLSTM.from_pytorch_impl {W : Type} (l : PyTorchLSTM W) :
    DistillerLSTM W :=
  ⟨l.weights⟩

/-- The recurrence of the built-in layer: direct structural recursion over
the input sequence, threading the hidden state. -/
def pytorchLSTMRun {W X H : Type} (cell : W → X → H → X × H) (w : W) :
    List X → H → List X × H
  | [], h => ([], h)
  | x :: xs, h =>
    let yh := cell w x h
    let rest := pytorchLSTMRun cell w xs yh.2
    (yh.1 :: rest.1, rest.2)

/-- The recurrence of the custom modular layer: a left fold over the input
sequence accumulating the output list, threading the hidden state.  Same
cell function, different program shape. -/
def distillerLSTMRun {W X H : Type} (cell : W → X → H → X × H) (w : W)
    (xs : List X) (h : H) : List X × H :=
  xs.foldl (fun acc x =>
    let yh := cell w x acc.2
    (acc.1 ++ [yh.1], yh.2)) (([] : List X), h)

/-- Modelled from the spec: the pretrained `RNNModel` with the built-in
recurrent layer; `P` is the type of parameter tensors. -/
structure RNNModel (P W : Type) where
  nlayers : Nat
  ninp : Nat
  nhid : Nat
  ntoken : Nat
  tie_weights : Bool
  encoder_weight : P
  decoder_weight : P
  decoder_bias : P
  rnn : PyTorchLSTM W

/-- Modelled from the spec: the converted `DistillerRNNModel` holding the
custom recurrent layer. -/
structure DistillerRNNModel (P W : Type) where
  nlayers : Nat
  ninp : Nat
  nhid : Nat
  ntoken : Nat
  tie_weights : Bool
  encoder_weight : P
  decoder_weight : P
  decoder_bias : P
  rnn : DistillerLSTM W

/-- Modelled from the spec: the forward pass of the pretrained model —
embed each input token with the encoder weight (`emb`), run the built-in
recurrence, decode each output with the decoder weight and bias (`dec`). -/
def RNNModel.forward {P W I X H Y : Type} (emb : P → I → X)
    (cell : W → X → H → X × H) (dec : P → P → X → Y)
    (m : RNNModel P W) (input : List I) (hidden : H) : List Y × H :=
  let e := input.map (emb m.encoder_weight)
  let rh := pytorchLSTMRun cell m.rnn.weights e hidden
  (rh.1.map (dec m.decoder_weight m.decoder_bias), rh.2)

/-- Modelled from the spec: the forward pass of the converted model — the
same embedding and decoding maps on its own parameters, around the custom
modular recurrence. -/
def DistillerRNNModel.forward {P W I X H Y : Type} (emb : P → I → X)
    (cell : W → X → H → X × H) (dec : P → P → X → Y)
    (m : DistillerRNNModel P W) (input : List I) (hidden : H) : List Y × H :=
  let e := input.map (emb m.encoder_weight)
  let rh := distillerLSTMRun cell m.rnn.weights e hidden
  (rh.1.map (dec m.decoder_weight m.decoder_bias), rh.2)

/-- Embedding of `manual_model(pytorch_model_)` from the notebook: read `nlayers`,
`ninp`, `nhid`, `ntoken`, `tie_weights` off the pretrained model, build a
`DistillerRNNModel` with them, copy the encoder weight, the decoder weight
and the decoder bias (`nn.Parameter(... .clone().detach())` preserves the
tensor values), and set the recurrent layer to
`LSTM.from_pytorch_impl(pytorch_model_.rnn)`. -/
def manual_model {P W : Type} (pytorch_model_ : RNNModel P W) :
    DistillerRNNModel P W :=
  { nlayers := pytorch_model_.nlayers
    ninp := pytorch_model_.ninp
    nhid := pytorch_model_.nhid
    ntoken := pytorch_model_.ntoken
    tie_weights := pytorch_model_.tie_weights
    encoder_weight := pytorch_model_.encoder_weight
    decoder_weight := pytorch_model_.decoder_weight
    decoder_bias := pytorch_model_.decoder_bias
    rnn := DistillerLSTM.from_pytorch_impl pytorch_model_.rnn }

/-! ### Calibration statistics (quantize_lstm.ipynb)

`QuantCalibrationStatsCollector` and its `save` method are not under
`src/`; the notebook's own description of the collector is.  Per that
description, each forward pass the collector records, for each layer:
the absolute over-all-batches `min` and `max`, the per-batch averages
`avg_min` and `avg_max`, the `mean`, the `std` and the shape of the output
tensor.  The later `clip_acts="AVG"` configuration reads `avg_min`/`avg_max`
back from the saved file. -/

/-- Modelled from the spec: the names of the statistics
`QuantCalibrationStatsCollector` records per layer (from the notebook's
description of the collector: `min`, `max`, `avg_min`, `avg_max`, `mean`,
`std`, shape of the output tensor). -/
def collectedStatKeys : List String :=
  ["min", "max", "avg_min", "avg_max", "mean", "std", "shape"]

/-- The five per-layer statistics the spec's data-model section enumerates
("per-layer min/max/mean/std/shape"). -/
def specStatKeys : List String :=
  ["min", "max", "mean", "std", "shape"]

/-- Modelled from the spec: the per-layer records the collector holds after
calibration — one entry per layer of the model, carrying the collected
statistic keys. -/
def collectorRecords (layers : List String) : List (String × List String) :=
  layers.map (fun l => (l, collectedStatKeys))

/-- Modelled from the spec: `collector.save(...)` serializes the per-layer
records to the YAML statistics file; the file's contents are the records. -/
structure StatsYamlFile where
  contents : List (String × List String)

/-- Modelled from the spec: what `collector.save` writes for a model with
the given layers. -/
def collectorSave (layers : List String) : StatsYamlFile :=
  ⟨collectorRecords layers⟩

/-! ### Feature-map capture (save_intermediate_feature_maps.ipynb)

A module of the network is embedded by the value of its optional
`distiller_name` attribute (assigned by `assign_layer_fq_names`) and the
output tensor its forward computation produces during the capture pass.
The dictionary `intermediary_results` is an insertion-ordered key/value
list with Python-dict assignment semantics. -/

/-- A sub-module of the loaded network: `distiller_name` is `some n` when
`hasattr(m, 'distiller_name')`, and `output` is the value of the output
tensor `o.data` of its forward computation. -/
structure FMModule where
  distiller_name : Option String
  output : List Int
deriving DecidableEq

/-- Python dict assignment `d[k] = v`: overwrite the entry in place when the
key is present, append the new entry otherwise. -/
def dictInsert {V : Type} (d : List (String × V)) (k : String) (v : V) :
    List (String × V) :=
  if d.any (fun p => p.1 = k) then
    d.map (fun p => if p.1 = k then (k, v) else p)
  else d ++ [(k, v)]

/-- The keys of a dict, in insertion order. -/
def dictKeys {V : Type} (d : List (String × V)) : List String :=
  d.map Prod.fst

/-- Modelled from the spec: `o.data.cpu().numpy()` converts the output
tensor to a numpy array, preserving the element values. -/
def tensorToNumpy (t : List Int) : List Int := t

/-- Embedding of `save_conv_output(m, i, o)` from the notebook: the forward-hook body
`intermediary_results[m.distiller_name] = o.data.cpu().numpy()`.  The hook
is only ever installed on modules that have the attribute; on a module
without it the assignment is never reached. -/
def save_conv_output (results : List (String × List Int)) (m : FMModule) :
    List (String × List Int) :=
  match m.distiller_name with
  | some n => dictInsert results n (tensorToNumpy m.output)
  | none => results

/-- Embedding of `register_forward_hook(m)` from the notebook: when
`hasattr(m, 'distiller_name')`, register the hook and append its handle to
`cb_handles`.  A handle is embedded by the module it is attached to. -/
def register_forward_hook (handles : List FMModule) (m : FMModule) :
    List FMModule :=
  if m.distiller_name.isSome then handles ++ [m] else handles

/-- Embedding of `resnet50_sparse.apply(register_forward_hook)`: visit every sub-module
of the model and register; the resulting `cb_handles` list. -/
def registerAllHooks (modules : List FMModule) : List FMModule :=
  modules.foldl register_forward_hook []

/-- A forward pass of the model with a set of active hooks: each executed
module whose hook is active fires `save_conv_output` on the results dict. -/
def forwardWithHooks (executed : List FMModule) (active : List FMModule)
    (results : List (String × List Int)) : List (String × List Int) :=
  executed.foldl
    (fun r m => if m ∈ active then save_conv_output r m else r) results

/-- Embedding of the loop `for h in cb_handles: h.remove()`: unregister every handle in the list
from the set of active hooks. -/
def removeAllHandles (active : List FMModule) (handles : List FMModule) :
    List FMModule :=
  handles.foldl (fun act h => act.erase h) active

/-- The state of `intermediary_results` after the capture cell: hooks
registered on every module with a `distiller_name`, one forward pass over
the executed modules, starting from the empty dict. -/
def captureResults (modules executed : List FMModule) :
    List (String × List Int) :=
  forwardWithHooks executed (registerAllHooks modules) []

/-- Modelled from the spec: the pickled file holds the mapping written to
it. -/
structure PickleFile where
  contents : List (String × List Int)

/-- Modelled from the spec: `pickle.dump(intermediary_results, f)` writes
the mapping to the file. -/
def pickleDump (d : List (String × List Int)) : PickleFile := ⟨d⟩

/-- Modelled from the spec: `pickle.load(f)` reads the mapping back. -/
def pickleLoad (f : PickleFile) : List (String × List Int) := f.contents

/-! ### The notebooks as sequences of cells of pipeline-step events

For the temporal and error-handling claims each notebook is embedded as the
list of its code cells, each cell the list of pipeline-step invocations its
straight-line code performs, in program order.  Definitions of functions
(`def batchify`, `def evaluate`, ...) invoke nothing by themselves. -/

/-- The pipeline-step events occurring in the notebooks' cells. -/
inductive Step where
  | loadCorpus
  | batchify
  | loadModel
  | saveModel
  | convertModel
  | getBatch
  | forward
  | evaluate
  | collectStats
  | saveStats
  | quantize
  | printCompare
  | loadImage
  | collectMaps
  | saveMaps
  | loadMaps
deriving DecidableEq

/-- The code cells of `quantize_lstm.ipynb`, in order.  `statsMissing` is
the value of `not os.path.isfile('manual_lstm_pretrained_stats.yaml')` in
the collection cell: the calibration run happens only when the stats file
does not exist yet. -/
def quantizeLstmCells (statsMissing : Bool) : List (List Step) :=
  [ [],                                          -- imports
    [.loadCorpus],                               -- corpus = Corpus(...)
    [.batchify, .batchify, .batchify],           -- train_data, val_data, test_data
    [.loadModel],                                -- rnn_model = torch.load(...)
    [.convertModel, .saveModel],                 -- man_model = manual_model(rnn_model); torch.save
    [.getBatch],                                 -- data, targets = get_batch(test_data, 0)
    [.forward, .forward, .printCompare],         -- y_t = rnn_model(...); y_p = man_model(...); max error
    [],                                          -- defs: criterion, repackage_hidden, evaluate
    [.loadModel] ++
      (if statsMissing then [.evaluate, .collectStats, .saveStats] else []),
    [.loadModel, .evaluate, .printCompare],      -- baseline val_loss / ppl
    [.quantize],                                 -- PostTrainLinearQuantizer + prepare_model
    [],                                          -- display quantizer.model
    [.evaluate],                                 -- val_loss = evaluate(quantizer.model, ...)
    [.printCompare],                             -- print val_loss / ppl
    [.quantize],                                 -- asymmetric, per-channel config
    [.evaluate, .printCompare],
    [.evaluate, .printCompare],                  -- fp16 copy of the model
    [.quantize, .evaluate, .printCompare],       -- eltwise/encoder/decoder fp16 overrides
    [],                                          -- display quantizer.model
    [.quantize, .evaluate, .printCompare],       -- clip_acts AVG, encoder/decoder fp16
    [.quantize, .evaluate, .printCompare],       -- clip_acts AVG everywhere
    [] ]                                         -- display quantizer.model

/-- The code cells of `save_intermediate_feature_maps.ipynb`, in order. -/
def featureMapsCells : List (List Step) :=
  [ [],                                          -- imports
    [.loadModel, .loadModel],                    -- create_model x2 (+ load_checkpoint)
    [.loadImage, .forward, .printCompare],       -- open/preprocess image; forward; top-1
    [.forward, .collectMaps],                    -- hooked forward pass captures the maps
    [.saveMaps],                                 -- pickle.dump
    [.loadMaps],                                 -- pickle.load + print layer names
    [] ]                                         -- empty trailing cell

/-- The pipeline steps the per-cell invocation-count claim enumerates:
forward pass, batchification, evaluation. -/
def pipelineSteps : List Step := [.forward, .batchify, .evaluate]

/-- For each cell (by index) and each pipeline step invoked more than once
in that cell, the triple (cell index, step, invocation count). -/
def overCounts (cells : List (List Step)) : List (Nat × Step × Nat) :=
  cells.enum.flatMap (fun ci =>
    (pipelineSteps.filter (fun s => 1 < ci.2.count s)).map
      (fun s => (ci.1, s, ci.2.count s)))

/-- The position of a step in the spec's pipeline chain
(load corpus/image, load model, convert, forward, collect stats/plots,
quantize, re-evaluate, compare); `none` for steps outside the chain. -/
def chainPos : Step → Option Nat
  | .loadCorpus => some 0
  | .loadImage => some 0
  | .loadModel => some 1
  | .convertModel => some 2
  | .forward => some 3
  | .collectStats => some 4
  | .collectMaps => some 4
  | .quantize => some 5
  | .evaluate => some 6
  | .printCompare => some 7
  | _ => none

/-- The flat event trace of a notebook: its cells' events in order. -/
def notebookTrace (cells : List (List Step)) : List Step :=
  cells.flatten

/-- The flat event trace of `quantize_lstm.ipynb`. -/
def qtTrace (statsMissing : Bool) : List Step :=
  notebookTrace (quantizeLstmCells statsMissing)

/-- The flat event trace of `save_intermediate_feature_maps.ipynb`. -/
def fmTrace : List Step :=
  notebookTrace featureMapsCells

/-- The spec's ordering discipline on a trace: the chain positions of the
trace's chain steps are nondecreasing (no step runs before a step that
precedes it in the chain). -/
def chainOrdered (t : List Step) : Prop :=
  (t.filterMap chainPos).Pairwise (fun a b => a ≤ b)

/-! ### Straight-line execution of a cell in the error monad

Neither notebook installs an exception handler (`try`/`except` appears
nowhere); a cell is a straight-line sequence of library calls.  Execution
is embedded in `Except`: `sem` gives each call's outcome, and a raised
exception aborts the cell and the run. -/

/-- Run the calls of one cell in order; the first error aborts the cell. -/
def runCell {E : Type} (sem : Step → Except E Unit) : List Step → Except E Unit
  | [] => Except.ok ()
  | s :: rest =>
    match sem s with
    | Except.ok _ => runCell sem rest
    | Except.error e => Except.error e

/-- Run the notebook cell by cell; an uncaught exception halts the run. -/
def runNotebook {E : Type} (sem : Step → Except E Unit) :
    List (List Step) → Except E Unit
  | [] => Except.ok ()
  | c :: rest =>
    match runCell sem c with
    | Except.ok _ => runNotebook sem rest
    | Except.error e => Except.error e

/-! ## Helper lemmas -/

theorem narrow0_getElem? (xs : List Int) (start len i : Nat) (hi : i < len) :
    (narrow0 xs start len)[i]? = xs[start + i]? := by
  simp [narrow0, List.getElem?_take, hi, List.getElem?_drop]

theorem length_trim (data : List Int) (bsz : Nat) :
    (narrow0 data 0 (data.length / bsz * bsz)).length = data.length / bsz * bsz := by
  simp [narrow0, Nat.div_mul_le_self]

theorem view2_headD_length (data : List Int) (bsz : Nat) (hb : 1 ≤ bsz) :
    ((view2 (narrow0 data 0 (data.length / bsz * bsz)) bsz
      (data.length / bsz)).headD []).length = data.length / bsz := by
  obtain ⟨b, rfl⟩ : ∃ b, bsz = b + 1 := ⟨bsz - 1, by omega⟩
  simp only [view2, List.range_succ_eq_map, List.map_cons, List.headD_cons]
  simp only [narrow0, Nat.zero_mul, List.drop_zero, List.length_take,
    List.length_drop, Nat.sub_zero]
  have h1 : data.length / (b + 1) * (b + 1) ≤ data.length := Nat.div_mul_le_self _ _
  have h2 : data.length / (b + 1) ≤ data.length / (b + 1) * (b + 1) :=
    Nat.le_mul_of_pos_right _ (by omega)
  omega

theorem getD_map_range {α : Type} (n : Nat) (f : Nat → α) (d : α) (i : Nat)
    (hi : i < n) : ((List.range n).map f).getD i d = f i := by
  rw [List.getD_eq_getElem?_getD, List.getElem?_map, List.getElem?_range hi]
  rfl

theorem batchify_eq_map (data : List Int) (bsz : Nat) (hb : 1 ≤ bsz) :
    batchify data bsz = (List.range (data.length / bsz)).map
      (fun i => (view2 (narrow0 data 0 (data.length / bsz * bsz)) bsz
        (data.length / bsz)).map (fun row => row.getD i 0)) := by
  simp only [batchify, t2]
  rw [view2_headD_length data bsz hb]

theorem batchify_access (data : List Int) (bsz : Nat) (hb : 1 ≤ bsz)
    (i j : Nat) (hi : i < data.length / bsz) (hj : j < bsz) :
    ((batchify data bsz).getD i []).getD j 0
      = data.getD (j * (data.length / bsz) + i) 0 := by
  have hidx : j * (data.length / bsz) + i < data.length / bsz * bsz := by
    have h1 : j * (data.length / bsz) + i < (j + 1) * (data.length / bsz) := by
      rw [Nat.succ_mul]; omega
    have h2 : (j + 1) * (data.length / bsz) ≤ bsz * (data.length / bsz) :=
      Nat.mul_le_mul_right _ (by omega)
    calc j * (data.length / bsz) + i < (j + 1) * (data.length / bsz) := h1
      _ ≤ bsz * (data.length / bsz) := h2
      _ = data.length / bsz * bsz := Nat.mul_comm _ _
  rw [batchify_eq_map data bsz hb, getD_map_range _ _ _ _ hi]
  simp only [view2, List.map_map]
  rw [getD_map_range _ _ _ _ hj]
  simp only [Function.comp]
  rw [List.getD_eq_getElem?_getD, narrow0_getElem? _ _ _ _ hi,
    narrow0_getElem? _ _ _ _ (by omega : j * (data.length / bsz) + i
      < data.length / bsz * bsz), List.getD_eq_getElem?_getD]
  simp

/-- Claim C8: for every 1-D tensor `data` and batch size `bsz ≥ 1`,
`batchify` returns a `data.size(0) // bsz` by `bsz` tensor whose entry at
row `i`, column `j` is `data[j * (data.size(0) // bsz) + i]`, and the
trailing `data.size(0) mod bsz` input elements are dropped: the result is
the same as batchifying the input trimmed to `(data.size(0) // bsz) * bsz`
elements. -/
theorem batchify_shape_access_drop (data : List Int) (bsz : Nat)
    (hb : 1 ≤ bsz) :
    (batchify data bsz).length = data.length / bsz
  ∧ (∀ row ∈ batchify data bsz, row.length = bsz)
  ∧ (∀ i j, i < data.length / bsz → j < bsz →
      ((batchify data bsz).getD i []).getD j 0
        = data.getD (j * (data.length / bsz) + i) 0)
  ∧ batchify data bsz = batchify (data.take (data.length / bsz * bsz)) bsz := by
  refine ⟨?_, ?_, ?_, ?_⟩
  · rw [batchify_eq_map data bsz hb]
    simp
  · intro row hrow
    rw [batchify_eq_map data bsz hb] at hrow
    rcases List.mem_map.mp hrow with ⟨i, _, rfl⟩
    simp [view2]
  · exact fun i j hi hj => batchify_access data bsz hb i j hi hj
  · have hlen : (data.take (data.length / bsz * bsz)).length
        = data.length / bsz * bsz := by
      simp [Nat.div_mul_le_self]
    have hnb : (data.take (data.length / bsz * bsz)).length / bsz
        = data.length / bsz := by
      rw [hlen]; exact Nat.mul_div_cancel _ (by omega)
    have htrim : narrow0 data 0 (data.length / bsz * bsz)
        = narrow0 (data.take (data.length / bsz * bsz)) 0
            (data.length / bsz * bsz) := by
      simp [narrow0, List.take_take]
    simp only [batchify]
    rw [hnb, htrim]

/-- Witness for C8 at `data = [1, 2, 3, 4, 5]`, `bsz = 2`. -/
theorem batchify_shape_access_drop_witness :
    1 ≤ 2
  ∧ ((batchify [1, 2, 3, 4, 5] 2).length = [1, 2, 3, 4, 5].length / 2
  ∧ (∀ row ∈ batchify [1, 2, 3, 4, 5] 2, row.length = 2)
  ∧ (∀ i j, i < [1, 2, 3, 4, 5].length / 2 → j < 2 →
      ((batchify [1, 2, 3, 4, 5] 2).getD i []).getD j 0
        = [1, 2, 3, 4, 5].getD (j * ([1, 2, 3, 4, 5].length / 2) + i) 0)
  ∧ batchify [1, 2, 3, 4, 5] 2
      = batchify ([1, 2, 3, 4, 5].take ([1, 2, 3, 4, 5].length / 2 * 2)) 2) :=
  ⟨by decide, batchify_shape_access_drop [1, 2, 3, 4, 5] 2 (by decide)⟩

theorem getD_take_of_lt {α : Type} (l : List α) (n k : Nat) (d : α)
    (hk : k < n) : (l.take n).getD k d = l.getD k d := by
  rw [List.getD_eq_getElem?_getD, List.getD_eq_getElem?_getD,
    List.getElem?_take, if_pos hk]

theorem getD_drop {α : Type} (l : List α) (n k : Nat) (d : α) :
    (l.drop n).getD k d = l.getD (n + k) d := by
  rw [List.getD_eq_getElem?_getD, List.getD_eq_getElem?_getD,
    List.getElem?_drop]

/-- Claim C9: for a data source with at least two rows and
`0 ≤ i ≤ len(source) - 2`, `get_batch` stays in range: with
`seq_len = min(35, len(source) - 1 - i) ≥ 1`, `data` is the full slice
`source[i : i+seq_len]` of `seq_len` rows, `target` is the rows
`source[i+1 : i+1+seq_len]` (again `seq_len` of them) flattened, and
row `k` of the target rows is `source[i + 1 + k]`, i.e. row `k` of `data`
shifted forward by one row. -/
theorem get_batch_in_range (source : List (List Int)) (i : Nat)
    (h2 : 2 ≤ source.length) (hi : i ≤ source.length - 2) :
    1 ≤ min sequence_len (source.length - 1 - i)
  ∧ (get_batch source i).1
      = (source.drop i).take (min sequence_len (source.length - 1 - i))
  ∧ (get_batch source i).1.length = min sequence_len (source.length - 1 - i)
  ∧ (get_batch source i).2
      = ((source.drop (i + 1)).take
          (min sequence_len (source.length - 1 - i))).flatten
  ∧ ((source.drop (i + 1)).take
      (min sequence_len (source.length - 1 - i))).length
      = min sequence_len (source.length - 1 - i)
  ∧ ∀ k, k < min sequence_len (source.length - 1 - i) →
      ((source.drop (i + 1)).take
          (min sequence_len (source.length - 1 - i))).getD k []
        = source.getD (i + 1 + k) []
      ∧ ((source.drop i).take
          (min sequence_len (source.length - 1 - i))).getD k []
        = source.getD (i + k) [] := by
  have hseq : 1 ≤ min sequence_len (source.length - 1 - i) := by
    refine le_min (by norm_num [sequence_len]) (by omega)
  have hle : min sequence_len (source.length - 1 - i) ≤ source.length - 1 - i :=
    min_le_right _ _
  refine ⟨hseq, rfl, ?_, rfl, ?_, ?_⟩
  · simp only [get_batch, List.length_take, List.length_drop]
    omega
  · simp only [List.length_take, List.length_drop]
    omega
  · intro k hk
    constructor
    · rw [getD_take_of_lt _ _ _ _ hk, getD_drop]
    · rw [getD_take_of_lt _ _ _ _ hk, getD_drop]

/-- Witness for C9 at `source = [[1], [2], [3]]`, `i = 0`. -/
theorem get_batch_in_range_witness :
    (2 ≤ ([[1], [2], [3]] : List (List Int)).length
      ∧ 0 ≤ ([[1], [2], [3]] : List (List Int)).length - 2)
  ∧ (1 ≤ min sequence_len (([[1], [2], [3]] : List (List Int)).length - 1 - 0)
  ∧ (get_batch [[1], [2], [3]] 0).1
      = (([[1], [2], [3]] : List (List Int)).drop 0).take
          (min sequence_len (([[1], [2], [3]] : List (List Int)).length - 1 - 0))
  ∧ (get_batch [[1], [2], [3]] 0).1.length
      = min sequence_len (([[1], [2], [3]] : List (List Int)).length - 1 - 0)
  ∧ (get_batch [[1], [2], [3]] 0).2
      = ((([[1], [2], [3]] : List (List Int)).drop (0 + 1)).take
          (min sequence_len
            (([[1], [2], [3]] : List (List Int)).length - 1 - 0))).flatten
  ∧ ((([[1], [2], [3]] : List (List Int)).drop (0 + 1)).take
      (min sequence_len (([[1], [2], [3]] : List (List Int)).length - 1 - 0))).length
      = min sequence_len (([[1], [2], [3]] : List (List Int)).length - 1 - 0)
  ∧ ∀ k, k < min sequence_len
        (([[1], [2], [3]] : List (List Int)).length - 1 - 0) →
      ((([[1], [2], [3]] : List (List Int)).drop (0 + 1)).take
          (min sequence_len
            (([[1], [2], [3]] : List (List Int)).length - 1 - 0))).getD k []
        = ([[1], [2], [3]] : List (List Int)).getD (0 + 1 + k) []
      ∧ ((([[1], [2], [3]] : List (List Int)).drop 0).take
          (min sequence_len
            (([[1], [2], [3]] : List (List Int)).length - 1 - 0))).getD k []
        = ([[1], [2], [3]] : List (List Int)).getD (0 + k) []) :=
  ⟨⟨by decide, by decide⟩, get_batch_in_range [[1], [2], [3]] 0 (by decide) (by decide)⟩

theorem distillerLSTMRun_foldl_aux {W X H : Type} (cell : W → X → H → X × H)
    (w : W) :
    ∀ (xs : List X) (acc : List X) (h : H),
      xs.foldl (fun p x =>
        let yh := cell w x p.2
        (p.1 ++ [yh.1], yh.2)) (acc, h)
      = (acc ++ (pytorchLSTMRun cell w xs h).1,
         (pytorchLSTMRun cell w xs h).2)
  | [], acc, h => by simp [pytorchLSTMRun]
  | x :: xs, acc, h => by
    simp only [List.foldl_cons, pytorchLSTMRun]
    rw [distillerLSTMRun_foldl_aux cell w xs (acc ++ [(cell w x h).1]) (cell w x h).2]
    simp

theorem distillerLSTMRun_eq_pytorchLSTMRun {W X H : Type}
    (cell : W → X → H → X × H) (w : W) (xs : List X) (h : H) :
    distillerLSTMRun cell w xs h = pytorchLSTMRun cell w xs h := by
  unfold distillerLSTMRun
  rw [distillerLSTMRun_foldl_aux cell w xs [] h]
  simp

/-- Claim C1: converting the pretrained model with `manual_model` — copying
the encoder weight, decoder weight and bias, and building the recurrent
layer with `LSTM.from_pytorch_impl` — yields a functionally equivalent
model: for every embedding map, recurrent cell, decoding map, input batch
and initial hidden state, the converted model's forward output equals the
original model's forward output. -/
theorem manual_model_forward_equiv {P W I X H Y : Type} (emb : P → I → X)
    (cell : W → X → H → X × H) (dec : P → P → X → Y)
    (pytorch_model_ : RNNModel P W) (input : List I) (hidden : H) :
    DistillerRNNModel.forward emb cell dec (manual_model pytorch_model_)
      input hidden
    = RNNModel.forward emb cell dec pytorch_model_ input hidden := by
  simp only [DistillerRNNModel.forward, RNNModel.forward, manual_model,
    DistillerLSTM.from_pytorch_impl]
  rw [distillerLSTMRun_eq_pytorchLSTMRun]

theorem evaluate_foldl_aux {H O : Type} (model : List (List Int) → H → O × H)
    (criterion : O → List Int → ℚ) (source : List (List Int)) :
    ∀ (l : List Nat) (a : ℚ) (h : H),
      (l.foldl (fun acc i =>
          let db := get_batch source i
          let oh := model db.1 acc.2
          (acc.1 + (db.1.length : ℚ) * criterion oh.1 db.2, oh.2)) (a, h)).1
      = a + ((batchLossList model criterion source l h).map
          (fun p => (p.1 : ℚ) * p.2)).sum
  | [], a, h => by simp [batchLossList]
  | i :: is, a, h => by
    simp only [List.foldl_cons]
    rw [evaluate_foldl_aux model criterion source is _ _]
    simp only [batchLossList, get_batch, List.map_cons, List.sum_cons]
    ring

/-- Claim C2: `evaluate` returns the sum over all batches of (batch row
count × per-batch mean cross-entropy of the model's outputs against the
one-row-shifted flattened targets, hidden state threaded between batches)
divided by the number of rows of the data source, and every
(val_loss, ppl) figure the notebook reports satisfies
ppl = np.exp(val_loss) with val_loss the value `evaluate` returned. -/
theorem evaluate_weighted_ce_and_ppl {H O : Type}
    (model : List (List Int) → H → O × H) (criterion : O → List Int → ℚ)
    (hidden0 : H) (source : List (List Int))
    (models : List (List (List Int) → H → O × H)) (exmap : ℚ → ℚ) :
    evaluate model criterion hidden0 source
      = ((batchLosses model criterion hidden0 source).map
          (fun p => (p.1 : ℚ) * p.2)).sum / (source.length : ℚ)
  ∧ ∀ fig ∈ reportedFigures models criterion exmap hidden0 source,
      fig.2 = exmap fig.1 := by
  constructor
  · unfold evaluate batchLosses
    rw [evaluate_foldl_aux model criterion source (batchStarts source.length)
      0 hidden0]
    rw [zero_add]
  · intro fig hfig
    rcases List.mem_map.mp hfig with ⟨m, _, rfl⟩
    rfl

/-- Claim C3, counterexample: it is not the case that every statistic the
collector records per layer is among the spec's five
(min/max/mean/std/shape) — `avg_min` and `avg_max` are also recorded. -/
theorem collected_stats_exceed_spec_five :
    ¬ ∀ k ∈ collectedStatKeys, k ∈ specStatKeys := by
  decide

/-- Claim C3, amended: for every layer the collector records, and the saved
YAML statistics file serializes, exactly the seven per-layer statistics
min, max, avg_min, avg_max, mean, std and output-tensor shape: the spec's
five plus the per-batch average min and max that the later
clip_acts="AVG" configuration depends on. -/
theorem collected_stats_exactly_seven (layers : List String) :
    (∀ k ∈ specStatKeys, k ∈ collectedStatKeys)
  ∧ (∀ k ∈ collectedStatKeys,
      k ∈ specStatKeys ∨ k = "avg_min" ∨ k = "avg_max")
  ∧ ∀ p ∈ (collectorSave layers).contents, p.2 = collectedStatKeys := by
  refine ⟨by decide, by decide, ?_⟩
  intro p hp
  simp only [collectorSave, collectorRecords, List.mem_map] at hp
  rcases hp with ⟨l, _, rfl⟩
  rfl

/-- Claim C5, counterexample: some cell of the LSTM notebook invokes a
pipeline step more than once — the data-preparation cell calls `batchify`
three times. -/
theorem step_once_per_cell_refuted :
    ¬ ∀ c ∈ quantizeLstmCells true, ∀ s ∈ pipelineSteps, c.count s ≤ 1 := by
  decide

/-- Claim C5, amended: every pipeline step (forward pass, batchification,
evaluation) is invoked at most once per cell, with exactly two exceptions,
both in the LSTM notebook: the data-preparation cell (index 2) calls
`batchify` three times (train/validation/test splits) and the
conversion-check cell (index 6) runs two forward passes (original and
converted model).  No cell of the feature-map notebook exceeds one
invocation. -/
theorem pipeline_step_overcounts :
    overCounts (quantizeLstmCells true)
      = [(2, Step.batchify, 3), (6, Step.forward, 2)]
  ∧ overCounts (quantizeLstmCells false)
      = [(2, Step.batchify, 3), (6, Step.forward, 2)]
  ∧ overCounts featureMapsCells = [] := by
  decide

/-- Claim C6, counterexample: the feature-map notebook's trace is not
ordered along the spec's pipeline chain — the pretrained model is loaded
before the image is loaded. -/
theorem chain_order_refuted : ¬ chainOrdered fmTrace := by
  unfold chainOrdered fmTrace notebookTrace
  decide

/-- Claim C6, amended: within each notebook the first occurrences of the
pipeline steps follow the chain, with two deviations from the spec's order:
in the LSTM notebook an evaluation runs before the first quantization (the
baseline), with an evaluation again after the first quantization, and in
the feature-map notebook the pretrained model is loaded before the image;
otherwise load corpus → load model → convert → forward → collect
statistics → quantize holds in the LSTM notebook (statistics collection
when the stats file is missing) and load model → load image → forward →
collect maps → save holds in the feature-map notebook. -/
theorem pipeline_first_occurrence_order :
    (∀ b, (qtTrace b).indexOf Step.loadCorpus
        < (qtTrace b).indexOf Step.loadModel
      ∧ (qtTrace b).indexOf Step.loadModel
        < (qtTrace b).indexOf Step.convertModel
      ∧ (qtTrace b).indexOf Step.convertModel
        < (qtTrace b).indexOf Step.forward
      ∧ (qtTrace b).indexOf Step.forward
        < (qtTrace b).indexOf Step.evaluate
      ∧ (qtTrace b).indexOf Step.evaluate
        < (qtTrace b).indexOf Step.quantize
      ∧ Step.evaluate ∈ (qtTrace b).drop ((qtTrace b).indexOf Step.quantize))
  ∧ (qtTrace true).indexOf Step.forward
      < (qtTrace true).indexOf Step.collectStats
  ∧ (qtTrace true).indexOf Step.collectStats
      < (qtTrace true).indexOf Step.quantize
  ∧ fmTrace.indexOf Step.loadModel < fmTrace.indexOf Step.loadImage
  ∧ fmTrace.indexOf Step.loadImage < fmTrace.indexOf Step.forward
  ∧ fmTrace.indexOf Step.forward < fmTrace.indexOf Step.collectMaps
  ∧ fmTrace.indexOf Step.collectMaps < fmTrace.indexOf Step.saveMaps
  ∧ fmTrace.indexOf Step.saveMaps < fmTrace.indexOf Step.loadMaps := by
  refine ⟨fun b => ?_, by decide⟩
  cases b <;> decide

theorem runCell_ok_iff {E : Type} (sem : Step → Except E Unit) :
    ∀ t : List Step,
      runCell sem t = Except.ok () ↔ ∀ s ∈ t, sem s = Except.ok ()
  | [] => by simp [runCell]
  | s :: t => by
    unfold runCell
    cases hs : sem s with
    | ok u =>
      cases u
      rw [runCell_ok_iff sem t]
      simp [hs]
    | error e => simp [hs]

theorem runCell_error_mem {E : Type} (sem : Step → Except E Unit) :
    ∀ (t : List Step) (e : E),
      runCell sem t = Except.error e → ∃ s ∈ t, sem s = Except.error e
  | [], e => by simp [runCell]
  | s :: t, e => by
    unfold runCell
    cases hs : sem s with
    | ok u =>
      intro h
      rcases runCell_error_mem sem t e h with ⟨s', hs', he⟩
      exact ⟨s', List.mem_cons_of_mem _ hs', he⟩
    | error e' =>
      intro h
      obtain rfl : e' = e := by injection h
      exact ⟨s, List.mem_cons_self s t, hs⟩

theorem runNotebook_ok_iff {E : Type} (sem : Step → Except E Unit) :
    ∀ cells : List (List Step),
      runNotebook sem cells = Except.ok ()
        ↔ ∀ s ∈ cells.flatten, sem s = Except.ok ()
  | [] => by simp [runNotebook]
  | c :: rest => by
    unfold runNotebook
    cases hc : runCell sem c with
    | ok u =>
      cases u
      rw [runNotebook_ok_iff sem rest]
      have hcall := (runCell_ok_iff sem c).mp hc
      simp only [List.flatten_cons, List.mem_append]
      constructor
      · intro hrest s hmem
        rcases hmem with hmem | hmem
        · exact hcall s hmem
        · exact hrest s hmem
      · intro hall s hmem
        exact hall s (Or.inr hmem)
    | error e =>
      constructor
      · intro h
        exact absurd h (by simp)
      · intro hall
        rcases runCell_error_mem sem c e hc with ⟨s, hmem, hs⟩
        have := hall s (by simp [List.flatten_cons, hmem])
        rw [this] at hs
        exact absurd hs (by simp)

theorem runNotebook_error_mem {E : Type} (sem : Step → Except E Unit) :
    ∀ (cells : List (List Step)) (e : E),
      runNotebook sem cells = Except.error e →
        ∃ s ∈ cells.flatten, sem s = Except.error e
  | [], e => by simp [runNotebook]
  | c :: rest, e => by
    unfold runNotebook
    cases hc : runCell sem c with
    | ok u =>
      intro h
      rcases runNotebook_error_mem sem rest e h with ⟨s, hmem, hs⟩
      exact ⟨s, by simp [List.flatten_cons, hmem], hs⟩
    | error e' =>
      intro h
      rcases runCell_error_mem sem c e' hc with ⟨s, hmem, hs⟩
      exact ⟨s, by simp [List.flatten_cons, hmem], hs.trans h⟩

/-- Claim C7: neither notebook installs an exception handler: a notebook
run completes normally exactly when every library call in its trace
returns normally, and when a call raises, the error propagates to the
result unchanged — the run's error is the error of some call of the trace,
never converted into a normal result. -/
theorem exceptions_propagate_uncaught {E : Type} (sem : Step → Except E Unit)
    (statsMissing : Bool) :
    (runNotebook sem (quantizeLstmCells statsMissing) = Except.ok ()
      ↔ ∀ s ∈ qtTrace statsMissing, sem s = Except.ok ())
  ∧ (∀ e, runNotebook sem (quantizeLstmCells statsMissing) = Except.error e →
      ∃ s ∈ qtTrace statsMissing, sem s = Except.error e)
  ∧ (runNotebook sem featureMapsCells = Except.ok ()
      ↔ ∀ s ∈ fmTrace, sem s = Except.ok ())
  ∧ (∀ e, runNotebook sem featureMapsCells = Except.error e →
      ∃ s ∈ fmTrace, sem s = Except.error e) :=
  ⟨runNotebook_ok_iff sem _,
   fun e => runNotebook_error_mem sem _ e,
   runNotebook_ok_iff sem _,
   fun e => runNotebook_error_mem sem _ e⟩

theorem mem_registerAll_foldl (m : FMModule) :
    ∀ (mods acc : List FMModule),
      m ∈ mods.foldl register_forward_hook acc
        ↔ m ∈ acc ∨ (m ∈ mods ∧ m.distiller_name.isSome = true)
  | [], acc => by simp
  | x :: t, acc => by
    simp only [List.foldl_cons]
    rw [mem_registerAll_foldl m t (register_forward_hook acc x)]
    unfold register_forward_hook
    by_cases hx : x.distiller_name.isSome = true
    · simp only [hx, if_true, List.mem_append, List.mem_cons,
        List.not_mem_nil, or_false, List.mem_singleton]
      constructor
      · rintro ((hm | rfl) | ⟨hmt, hs⟩)
        · exact Or.inl hm
        · exact Or.inr ⟨Or.inl rfl, hx⟩
        · exact Or.inr ⟨Or.inr hmt, hs⟩
      · rintro (hm | ⟨(rfl | hmt), hs⟩)
        · exact Or.inl (Or.inl hm)
        · exact Or.inl (Or.inr rfl)
        · exact Or.inr ⟨hmt, hs⟩
    · simp only [hx, if_false, List.mem_cons]
      constructor
      · rintro (hm | ⟨hmt, hs⟩)
        · exact Or.inl hm
        · exact Or.inr ⟨Or.inr hmt, hs⟩
      · rintro (hm | ⟨(rfl | hmt), hs⟩)
        · exact Or.inl hm
        · exact absurd hs hx
        · exact Or.inr ⟨hmt, hs⟩

theorem mem_registerAllHooks (mods : List FMModule) (m : FMModule) :
    m ∈ registerAllHooks mods
      ↔ m ∈ mods ∧ m.distiller_name.isSome = true := by
  unfold registerAllHooks
  rw [mem_registerAll_foldl]
  simp

theorem dictInsert_of_fresh {V : Type} (d : List (String × V)) (k : String)
    (v : V) (hk : k ∉ dictKeys d) : dictInsert d k v = d ++ [(k, v)] := by
  unfold dictInsert
  rw [if_neg]
  intro hany
  rcases List.any_eq_true.mp hany with ⟨p, hp, hpk⟩
  exact hk (List.mem_map.mpr ⟨p, hp, of_decide_eq_true hpk⟩)

theorem forwardWithHooks_capture (mods : List FMModule) :
    ∀ (executed : List FMModule) (r : List (String × List Int)),
      (∀ m ∈ executed, m ∈ mods) →
      (executed.filterMap FMModule.distiller_name).Nodup →
      (∀ n ∈ executed.filterMap FMModule.distiller_name, n ∉ dictKeys r) →
      forwardWithHooks executed (registerAllHooks mods) r
        = r ++ executed.filterMap
            (fun m => m.distiller_name.map
              (fun n => (n, tensorToNumpy m.output)))
  | [], r, _, _, _ => by simp [forwardWithHooks]
  | m :: rest, r, hsub, hnodup, hdisj => by
    unfold forwardWithHooks
    simp only [List.foldl_cons]
    cases hm : m.distiller_name with
    | none =>
      have hsave : (if m ∈ registerAllHooks mods then save_conv_output r m
          else r) = r := by
        by_cases hin : m ∈ registerAllHooks mods
        · simp [hin, save_conv_output, hm]
        · simp [hin]
      rw [hsave]
      have hrec := forwardWithHooks_capture mods rest r
        (fun x hx => hsub x (List.mem_cons_of_mem _ hx))
        (by simpa [List.filterMap_cons, hm] using hnodup)
        (by
          intro n hn
          exact hdisj n (by simpa [List.filterMap_cons, hm] using hn))
      unfold forwardWithHooks at hrec
      rw [hrec]
      simp [List.filterMap_cons, hm]
    | some n =>
      have hin : m ∈ registerAllHooks mods :=
        (mem_registerAllHooks mods m).mpr
          ⟨hsub m (List.mem_cons_self m rest), by simp [hm]⟩
      have hfresh : n ∉ dictKeys r :=
        hdisj n (by simp [List.filterMap_cons, hm])
      have hsave : (if m ∈ registerAllHooks mods then save_conv_output r m
          else r) = r ++ [(n, tensorToNumpy m.output)] := by
        rw [if_pos hin]
        unfold save_conv_output
        rw [hm]
        exact dictInsert_of_fresh r n (tensorToNumpy m.output) hfresh
      rw [hsave]
      have hnodup' := hnodup
      simp only [List.filterMap_cons, hm, List.nodup_cons] at hnodup'
      have hrec := forwardWithHooks_capture mods rest
        (r ++ [(n, tensorToNumpy m.output)])
        (fun x hx => hsub x (List.mem_cons_of_mem _ hx))
        hnodup'.2
        (by
          intro n' hn'
          simp only [dictKeys, List.map_append, List.mem_append,
            List.map_cons, List.map_nil, List.mem_singleton]
          rintro (hkey | rfl)
          · exact hdisj n'
              (by simp [List.filterMap_cons, hm, hn']) hkey
          · exact hnodup'.1 hn')
      unfold forwardWithHooks at hrec
      rw [hrec]
      simp [List.filterMap_cons, hm]

theorem captureResults_eq (mods executed : List FMModule)
    (hsub : ∀ m ∈ executed, m ∈ mods)
    (hnodup : (executed.filterMap FMModule.distiller_name).Nodup) :
    captureResults mods executed
      = executed.filterMap
          (fun m => m.distiller_name.map
            (fun n => (n, tensorToNumpy m.output))) := by
  unfold captureResults
  rw [forwardWithHooks_capture mods executed [] hsub hnodup
    (by simp [dictKeys])]
  simp

theorem dictKeys_capture (executed : List FMModule) :
    dictKeys (executed.filterMap
        (fun m => m.distiller_name.map
          (fun n => (n, tensorToNumpy m.output))))
      = executed.filterMap FMModule.distiller_name := by
  induction executed with
  | nil => rfl
  | cons m rest ih =>
    cases hm : m.distiller_name with
    | none =>
      simp only [List.filterMap_cons, hm]
      exact ih
    | some n =>
      simp only [List.filterMap_cons, hm, Option.map_some', dictKeys,
        List.map_cons] at ih ⊢
      rw [ih]

theorem removeAllHandles_self :
    ∀ l : List FMModule, removeAllHandles l l = []
  | [] => rfl
  | x :: t => by
    unfold removeAllHandles
    simp only [List.foldl_cons, List.erase_cons_head]
    exact removeAllHandles_self t

theorem forwardWithHooks_nil_active :
    ∀ (executed : List FMModule) (r : List (String × List Int)),
      forwardWithHooks executed [] r = r
  | [], _ => rfl
  | m :: t, r => by
    unfold forwardWithHooks
    simp only [List.foldl_cons, List.not_mem_nil, if_false]
    exact forwardWithHooks_nil_active t r

/-- Claim C4: the mapping the feature-map notebook pickles has exactly the
`distiller_name`s of the modules whose forward hooks fired during the
capture pass as keys, their output tensors converted to numpy arrays as
values, and `pickle.load` on the written file returns a mapping equal to
the one `pickle.dump` wrote. -/
theorem feature_map_pickle_roundtrip (mods executed : List FMModule)
    (hsub : ∀ m ∈ executed, m ∈ mods)
    (hnodup : (executed.filterMap FMModule.distiller_name).Nodup) :
    dictKeys (captureResults mods executed)
      = executed.filterMap FMModule.distiller_name
  ∧ captureResults mods executed
      = executed.filterMap
          (fun m => m.distiller_name.map
            (fun n => (n, tensorToNumpy m.output)))
  ∧ pickleLoad (pickleDump (captureResults mods executed))
      = captureResults mods executed := by
  refine ⟨?_, captureResults_eq mods executed hsub hnodup, rfl⟩
  rw [captureResults_eq mods executed hsub hnodup]
  exact dictKeys_capture executed

/-- Witness for C4 at a model with a named convolution, an anonymous
module and a named classifier, all three executed. -/
theorem feature_map_pickle_roundtrip_witness :
    ((∀ m ∈ [(⟨some "conv1", [3, 4]⟩ : FMModule), ⟨none, [9]⟩,
        ⟨some "fc", [5]⟩],
      m ∈ [(⟨some "conv1", [3, 4]⟩ : FMModule), ⟨none, [9]⟩,
        ⟨some "fc", [5]⟩])
    ∧ (([(⟨some "conv1", [3, 4]⟩ : FMModule), ⟨none, [9]⟩,
        ⟨some "fc", [5]⟩].filterMap FMModule.distiller_name).Nodup))
  ∧ (dictKeys (captureResults
        [(⟨some "conv1", [3, 4]⟩ : FMModule), ⟨none, [9]⟩, ⟨some "fc", [5]⟩]
        [(⟨some "conv1", [3, 4]⟩ : FMModule), ⟨none, [9]⟩, ⟨some "fc", [5]⟩])
      = [(⟨some "conv1", [3, 4]⟩ : FMModule), ⟨none, [9]⟩,
          ⟨some "fc", [5]⟩].filterMap FMModule.distiller_name
  ∧ captureResults
        [(⟨some "conv1", [3, 4]⟩ : FMModule), ⟨none, [9]⟩, ⟨some "fc", [5]⟩]
        [(⟨some "conv1", [3, 4]⟩ : FMModule), ⟨none, [9]⟩, ⟨some "fc", [5]⟩]
      = [(⟨some "conv1", [3, 4]⟩ : FMModule), ⟨none, [9]⟩,
          ⟨some "fc", [5]⟩].filterMap
          (fun m => m.distiller_name.map
            (fun n => (n, tensorToNumpy m.output)))
  ∧ pickleLoad (pickleDump (captureResults
        [(⟨some "conv1", [3, 4]⟩ : FMModule), ⟨none, [9]⟩, ⟨some "fc", [5]⟩]
        [(⟨some "conv1", [3, 4]⟩ : FMModule), ⟨none, [9]⟩, ⟨some "fc", [5]⟩]))
      = captureResults
        [(⟨some "conv1", [3, 4]⟩ : FMModule), ⟨none, [9]⟩, ⟨some "fc", [5]⟩]
        [(⟨some "conv1", [3, 4]⟩ : FMModule), ⟨none, [9]⟩,
          ⟨some "fc", [5]⟩]) :=
  ⟨⟨by decide, by decide⟩,
   feature_map_pickle_roundtrip _ _ (by decide) (by decide)⟩

/-- Claim C10: after the capture cell every registered forward-hook handle
has been removed — the active-hook set is fully drained — so any later
forward pass leaves `intermediary_results` unchanged; and the capture pass
put exactly one entry into `intermediary_results` per executed module
possessing a `distiller_name` attribute. -/
theorem capture_hooks_drained_and_entries (mods executed : List FMModule)
    (hsub : ∀ m ∈ executed, m ∈ mods)
    (hnodup : (executed.filterMap FMModule.distiller_name).Nodup) :
    removeAllHandles (registerAllHooks mods) (registerAllHooks mods) = []
  ∧ (∀ (executed2 : List FMModule) (results : List (String × List Int)),
      forwardWithHooks executed2
        (removeAllHandles (registerAllHooks mods) (registerAllHooks mods))
        results = results)
  ∧ (captureResults mods executed).length
      = (executed.filterMap FMModule.distiller_name).length
  ∧ ∀ m ∈ executed, ∀ n, m.distiller_name = some n →
      (n, tensorToNumpy m.output) ∈ captureResults mods executed := by
  refine ⟨removeAllHandles_self _, ?_, ?_, ?_⟩
  · intro executed2 results
    rw [removeAllHandles_self]
    exact forwardWithHooks_nil_active executed2 results
  · have hkeys : dictKeys (captureResults mods executed)
        = executed.filterMap FMModule.distiller_name := by
      rw [captureResults_eq mods executed hsub hnodup]
      exact dictKeys_capture executed
    calc (captureResults mods executed).length
        = (dictKeys (captureResults mods executed)).length :=
          (List.length_map _ _).symm
      _ = (executed.filterMap FMModule.distiller_name).length := by
          rw [hkeys]
  · intro m hm n hn
    rw [captureResults_eq mods executed hsub hnodup]
    exact List.mem_filterMap.mpr ⟨m, hm, by rw [hn]; rfl⟩

/-- Witness for C10 at a two-module model, both modules executed, one
carrying a name. -/
theorem capture_hooks_drained_and_entries_witness :
    ((∀ m ∈ [(⟨some "layer1", [7]⟩ : FMModule), ⟨none, [0]⟩],
      m ∈ [(⟨some "layer1", [7]⟩ : FMModule), ⟨none, [0]⟩])
    ∧ (([(⟨some "layer1", [7]⟩ : FMModule),
        ⟨none, [0]⟩].filterMap FMModule.distiller_name).Nodup))
  ∧ (removeAllHandles
        (registerAllHooks [(⟨some "layer1", [7]⟩ : FMModule), ⟨none, [0]⟩])
        (registerAllHooks [(⟨some "layer1", [7]⟩ : FMModule), ⟨none, [0]⟩])
      = []
  ∧ (∀ (executed2 : List FMModule) (results : List (String × List Int)),
      forwardWithHooks executed2
        (removeAllHandles
          (registerAllHooks [(⟨some "layer1", [7]⟩ : FMModule), ⟨none, [0]⟩])
          (registerAllHooks
            [(⟨some "layer1", [7]⟩ : FMModule), ⟨none, [0]⟩]))
        results = results)
  ∧ (captureResults [(⟨some "layer1", [7]⟩ : FMModule), ⟨none, [0]⟩]
        [(⟨some "layer1", [7]⟩ : FMModule), ⟨none, [0]⟩]).length
      = ([(⟨some "layer1", [7]⟩ : FMModule),
          ⟨none, [0]⟩].filterMap FMModule.distiller_name).length
  ∧ ∀ m ∈ [(⟨some "layer1", [7]⟩ : FMModule), ⟨none, [0]⟩],
      ∀ n, m.distiller_name = some n →
      (n, tensorToNumpy m.output) ∈ captureResults
        [(⟨some "layer1", [7]⟩ : FMModule), ⟨none, [0]⟩]
        [(⟨some "layer1", [7]⟩ : FMModule), ⟨none, [0]⟩]) :=
  ⟨⟨by decide, by decide⟩,
   capture_hooks_drained_and_entries _ _ (by decide) (by decide)⟩

end Distiller
